import Mathlib

/-!
Verification of the mtg-scripts ingestion pipeline.

This file shallowly embeds the parts of the repository that the checked
properties concern:

* `mtg_utils/card_processing.py` — `calculate_average_price`,
  `extract_tcgplayer_price`;
* `mtg_utils/database.py` — `ensure_column_exists`, `batch_insert_cards`;
* `mtg_utils/io_operations.py` — the line-parsing core of `read_card_list`
  and its encoding-fallback loop;
* `mtg_utils/performance.py` — `retry_on_exception` / `execute_with_retry`
  and the `ConnectionPool` state machine.

Python floats are modelled as rationals (`ℚ`); Python dicts appearing as
date→price mappings are modelled as association lists (only their values are
ever consumed); SQLite tables are modelled as lists of rows keyed by their
first column.
-/

namespace MtgScripts

/-! ## Price extraction (`mtg_utils/card_processing.py`) -/

/-- A date→price mapping (a Python dict whose values may be `None`).
`calculate_average_price` only consumes the values. -/
abbrev PriceDict := List (String × Option ℚ)

/-- Embeds `calculate_average_price` (card_processing.py:114-132):
return `None` for an empty dict, filter out `None` values, return `None`
when no values remain, else return `sum / len`. -/
def calculate_average_price (price_dict : PriceDict) : Option ℚ :=
  if price_dict = [] then
    none
  else
    let prices := price_dict.filterMap (fun kv => kv.2)
    if prices = [] then
      none
    else
      some (prices.sum / prices.length)

/-- The innermost leaf of the nested price structure: the `"normal"`
(non-foil) condition, when present, holds a date→price mapping. -/
structure RetailData where
  normal : Option PriceDict
deriving DecidableEq

/-- The `"retail"` offer-type level under a vendor. -/
structure TcgData where
  retail : Option RetailData
deriving DecidableEq

/-- The `"tcgplayer"` vendor level under the paper channel. -/
structure PaperData where
  tcgplayer : Option TcgData
deriving DecidableEq

/-- A per-card price object; the `"paper"` key may be absent. -/
structure CardPriceData where
  paper : Option PaperData
deriving DecidableEq

/-- Embeds `extract_tcgplayer_price` (card_processing.py:135-161):
navigate paper → tcgplayer → retail → normal, returning `None` as soon as
any key is absent, else reduce the date→price mapping. -/
def extract_tcgplayer_price (card_price_data : CardPriceData) : Option ℚ :=
  match card_price_data.paper with
  | none => none
  | some paper_data =>
    match paper_data.tcgplayer with
    | none => none
    | some tcg_data =>
      match tcg_data.retail with
      | none => none
      | some retail_data =>
        match retail_data.normal with
        | none => none
        | some tcg_prices => calculate_average_price tcg_prices

/-! ## Schema migration (`mtg_utils/database.py`) -/

/-- Embeds `ensure_column_exists` (database.py:160-183).  The live column
list of the table (as reported by `PRAGMA table_info`) is the state; an
absent column is appended by the additive `ALTER TABLE ... ADD COLUMN` and
the function returns `True`; a present column leaves the table unchanged
and the function returns `False`. -/
def ensure_column_exists (columns : List String) (column : String) :
    Bool × List String :=
  if column ∈ columns then
    (false, columns)
  else
    (true, columns ++ [column])

/-! ## Batch upsert (`mtg_utils/database.py`, `batch_insert_cards`) -/

/-- A card tuple ready for insertion: a fixed-order sequence of nullable
column values whose first slot is the uuid (`card_data[0]`). -/
abbrev CardTuple := List (Option String)

/-- The cards table, modelled relationally as its list of rows; the
primary-key column is each row's first slot. -/
abbrev CardDb := List CardTuple

/-- Does a row's primary-key slot hold the uuid `u`?  (`row.head? = none`
means the row is empty, which no stored row ever is.) -/
def keyMatches (u : Option String) (row : CardTuple) : Bool :=
  row.head? == some u

/-- Number of rows of the table whose uuid equals `u`.  The live table's
PRIMARY KEY constraint keeps this at most 1. -/
def countUuid (db : CardDb) (u : Option String) : Nat :=
  db.countP (keyMatches u)

/-- Embeds the effect of `INSERT OR REPLACE INTO cards VALUES (...)`
(database.py:222-227): a row sharing the primary key is overwritten in
full, otherwise the tuple is appended as a new row. -/
def insertOrReplace (db : CardDb) (u : Option String) (card_data : CardTuple) :
    CardDb :=
  if db.any (keyMatches u) then
    db.map (fun row => if keyMatches u row then card_data else row)
  else
    db ++ [card_data]

/-- The three counters accumulated by `batch_insert_cards`. -/
structure InsertCounts where
  new_cards : Nat
  updated_cards : Nat
  skipped_cards : Nat
deriving DecidableEq

/-- Embeds the per-record body of the loop in `batch_insert_cards`
(database.py:214-235): read `card_data[0]` (an empty tuple raises
`IndexError` and aborts the batch, modelled as `.error`), probe for an
existing row with that uuid, then attempt the INSERT OR REPLACE.
`writeFails` abstracts the condition under which the write raises
`sqlite3.Error` for this tuple (e.g. a binding-arity mismatch for a
malformed record); a failing write only increments `skipped_cards` and
leaves the table unchanged. -/
def insert_card_step (writeFails : CardTuple → Bool)
    (st : InsertCounts × CardDb) (card_data : CardTuple) :
    Except Unit (InsertCounts × CardDb) :=
  match card_data.head? with
  | none => .error ()
  | some uuid =>
    if writeFails card_data then
      .ok ({ st.1 with skipped_cards := st.1.skipped_cards + 1 }, st.2)
    else if st.2.any (keyMatches uuid) then
      .ok ({ st.1 with updated_cards := st.1.updated_cards + 1 },
        insertOrReplace st.2 uuid card_data)
    else
      .ok ({ st.1 with new_cards := st.1.new_cards + 1 },
        insertOrReplace st.2 uuid card_data)

/-- Embeds `batch_insert_cards` (database.py:186-242).  The Python loop
slices `cards_data` into `batch_size` chunks solely to commit once per
chunk; the per-record writes visit `cards_data` in order regardless of the
chunking, so the pure model (which does not observe commit points) folds
the per-record step over the whole list. -/
def batch_insert_cards (writeFails : CardTuple → Bool) (db : CardDb)
    (cards_data : List CardTuple) : Except Unit (InsertCounts × CardDb) :=
  cards_data.foldlM (insert_card_step writeFails) (⟨0, 0, 0⟩, db)

/-! ## Deck-list parsing (`mtg_utils/io_operations.py`, `read_card_list`)

The parser is embedded over `List Char` (Python strings are sequences of
code points, and Python slicing/stripping is per character). -/

/-- Python's `str.strip()`: drop leading and trailing whitespace. -/
def pyStrip (cs : List Char) : List Char :=
  ((cs.dropWhile Char.isWhitespace).reverse.dropWhile Char.isWhitespace).reverse

/-- Python's `str.startswith(pre)`. -/
def listStartsWith (pre cs : List Char) : Bool :=
  pre.isPrefixOf cs

/-- Numeric value of the digit string captured by a regex group, as
computed by Python's `int()`. -/
def digitsToNat (ds : List Char) : Nat :=
  ds.foldl (fun n c => 10 * n + (c.toNat - '0'.toNat)) 0

/-- Embeds the MTGS-format regex match
`re.match(r"^(\d+)x\t(.+)$", line)` (io_operations.py:270): a nonempty
digit run, a literal `x`, a tab, then a nonempty remainder.  Returns the
quantity and the raw second group. -/
def matchMtgs (cs : List Char) : Option (Nat × List Char) :=
  let ds := cs.takeWhile Char.isDigit
  let rest := cs.dropWhile Char.isDigit
  if ds.isEmpty then
    none
  else
    match rest with
    | 'x' :: '\t' :: tail =>
      if tail.isEmpty then none else some (digitsToNat ds, tail)
    | _ => none

/-- Embeds the standard quantity match
`re.match(r"^(\d+)\s+(.+)$", line)` (io_operations.py:282) on a line that
has already been stripped of surrounding whitespace: a nonempty digit run,
a nonempty whitespace run, then the (necessarily nonempty) remainder
after the maximal whitespace run.  (On a stripped line the regex engine
never needs to backtrack `\s+` into `(.+)`: the line cannot end in
whitespace.) -/
def matchStd (cs : List Char) : Option (Nat × List Char) :=
  let ds := cs.takeWhile Char.isDigit
  let rest := cs.dropWhile Char.isDigit
  if ds.isEmpty then
    none
  else
    let ws := rest.takeWhile Char.isWhitespace
    let tail := rest.dropWhile Char.isWhitespace
    if ws.isEmpty then none
    else if tail.isEmpty then none
    else some (digitsToNat ds, tail)

/-- Embeds `re.sub(r"^\[[^\]]*\]\s*", "", card_part)`
(io_operations.py:289): when the text begins with `[`, has no `]` until a
closing `]`, drop through the bracket and any following whitespace;
otherwise the text is unchanged. -/
def stripSetBrackets (cs : List Char) : List Char :=
  match cs with
  | '[' :: rest =>
    (match rest.dropWhile (fun c => c != ']') with
      | ']' :: tail => tail.dropWhile Char.isWhitespace
      | _ => cs)
  | _ => cs

/-- Embeds the per-line body of the parsing loop in `read_card_list`
(io_operations.py:245-297), returning the card names this line
contributes: strip the line; skip blanks, `//` comments, `[DECK]` /
`[/DECK]` and URL tags, and the bare case-insensitive `sideboard` marker;
strip an `SB:` prefix; then try the MTGS tab format, then the standard
quantity format (with bracketed set annotations removed), and finally
fall back to the plain one-name-per-line format. -/
def processLine (raw_line : List Char) : List (List Char) :=
  let line := pyStrip raw_line
  if line.isEmpty || listStartsWith ("//").data line then []
  else if line = ("[DECK]").data then []
  else if line = ("[/DECK]").data then []
  else if listStartsWith ("[URL=").data line ||
      listStartsWith ("[/URL]").data line then []
  else if line.map Char.toLower = ("sideboard").data then []
  else
    let line := if listStartsWith ("SB:").data line then
      pyStrip (line.drop 3) else line
    match matchMtgs line with
    | some (quantity, name) =>
      List.replicate quantity (pyStrip name)
    | none =>
      match matchStd line with
      | some (quantity, card_part) =>
        let card_name := pyStrip (stripSetBrackets (pyStrip card_part))
        List.replicate quantity card_name
      | none => if line.isEmpty then [] else [line]

/-- Splitting the decoded file content at line feeds (accumulator holds
the current line reversed).  Python's `splitlines` on LF-separated text
yields the same lines, except for a trailing empty piece, which
contributes no card names. -/
def splitLinesAux : List Char → List Char → List (List Char)
  | [], acc => [acc.reverse]
  | '\n' :: rest, acc => acc.reverse :: splitLinesAux rest []
  | c :: rest, acc => splitLinesAux rest (c :: acc)

/-- The decoded file content, as a list of lines. -/
def splitLines (cs : List Char) : List (List Char) :=
  splitLinesAux cs []

/-- Embeds the successful-decode path of `read_card_list`
(io_operations.py:245-300): split the decoded file content into lines and
concatenate each line's contribution in order. -/
def read_card_list (file_content : String) : List String :=
  (((splitLines file_content.data).map processLine).flatten).map String.mk

/-! ## Encoding fallback of `read_card_list` (io_operations.py:228-243) -/

/-- The four encodings `read_card_list` attempts, in source order
(io_operations.py:229). -/
inductive PyEncoding
  | utf8
  | latin1
  | cp1252
  | iso8859_1
deriving DecidableEq

/-- The ordered list `encodings_to_try = ["utf-8", "latin-1", "cp1252",
"iso-8859-1"]`. -/
def encodings_to_try : List PyEncoding :=
  [.utf8, .latin1, .cp1252, .iso8859_1]

/-- Python's latin-1 (= iso-8859-1) codec: every byte decodes to the
character with the same code point, so decoding is total. -/
def latin1Decode (bs : List UInt8) : String :=
  String.mk (bs.map (fun b => Char.ofNat b.toNat))

/-- Decoding one candidate encoding.  The utf-8 and cp1252 codecs can
reject byte sequences, so they are passed in as arbitrary partial
decoders (`none` models `UnicodeDecodeError`); the latin-1 and iso-8859-1
codecs accept every byte sequence. -/
def decodeWith (utf8Dec cp1252Dec : List UInt8 → Option String) :
    PyEncoding → List UInt8 → Option String
  | .utf8, bs => utf8Dec bs
  | .latin1, bs => some (latin1Decode bs)
  | .cp1252, bs => cp1252Dec bs
  | .iso8859_1, bs => some (latin1Decode bs)

/-- Embeds the decode loop of `read_card_list` (io_operations.py:232-238):
try each encoding in order and keep the first successful decode; `none`
corresponds to reaching the `file_content is None` check with no decode
having succeeded. -/
def tryDecodeLoop (utf8Dec cp1252Dec : List UInt8 → Option String) :
    List PyEncoding → List UInt8 → Option String
  | [], _ => none
  | e :: rest, bs =>
    match decodeWith utf8Dec cp1252Dec e bs with
    | some s => some s
    | none => tryDecodeLoop utf8Dec cp1252Dec rest bs

/-- The whole fallback: the loop run over `encodings_to_try`. -/
def decode_file_content (utf8Dec cp1252Dec : List UInt8 → Option String)
    (bs : List UInt8) : Option String :=
  tryDecodeLoop utf8Dec cp1252Dec encodings_to_try bs

/-! ## Statement-level retry (`mtg_utils/performance.py`) -/

/-- Outcome of one underlying `cursor.execute` in `execute_with_retry`
(performance.py:617-627), classified the way the source's handlers
classify it. -/
inductive SqliteOutcome
  | success
  | operationalLocked
  | operationalOther
  | otherSqliteError
deriving DecidableEq

/-- The two exception kinds the body of `execute_with_retry` can raise:
`RetryableError` (for "database is locked") and the non-retryable
`DatabaseError` produced by `handle_sqlite_error`. -/
inductive DbException
  | retryableError
  | databaseError
deriving DecidableEq

/-- Embeds the body of `execute_with_retry` (performance.py:617-627):
an `OperationalError` whose message contains "database is locked" is
re-raised as `RetryableError`; every other `OperationalError` and every
other `sqlite3.Error` is converted by `handle_sqlite_error` to a
`DatabaseError`. -/
def execute_attempt : SqliteOutcome → Except DbException Unit
  | .success => .ok ()
  | .operationalLocked => .error DbException.retryableError
  | .operationalOther => .error DbException.databaseError
  | .otherSqliteError => .error DbException.databaseError

/-- Membership of the raised exception in the retry tuple of
`retry_database_operation` (performance.py:516-526):
`(sqlite3.OperationalError, DatabaseConnectionError, RetryableError)`.
The body converts every raw sqlite error before re-raising, so of the two
exceptions it can raise only `RetryableError` is in the tuple;
`DatabaseError` is not and propagates immediately. -/
def is_retryable : DbException → Bool
  | .retryableError => true
  | .databaseError => false

/-- Embeds the delay computation of `retry_on_exception`
(performance.py:478-483): start from `base_delay`, double per prior
attempt when exponential backoff is on, and scale by `0.5 + random()`
when jitter is on (`jitterSample` is the sampled `random()` value). -/
def retry_delay (base_delay : ℚ) (exponential_backoff jitter : Bool)
    (attempt : Nat) (jitterSample : ℚ) : ℚ :=
  let d := base_delay
  let d := if exponential_backoff then d * 2 ^ attempt else d
  if jitter then d * (1/2 + jitterSample) else d

/-- Embeds the attempt loop of `retry_on_exception`
(performance.py:466-495), with `remaining` the number of retries still
permitted (`max_retries - attempt`) and `f` the wrapped call indexed by
attempt number.  Returns the final result together with the number of
attempts performed: a success returns it; a retryable exception with
retries remaining recurses; a retryable exception with none remaining,
and any non-retryable exception, is raised at once. -/
def retry_loop (p : DbException → Bool)
    (f : Nat → Except DbException Unit) :
    Nat → Nat → Except DbException Unit × Nat
  | 0, attempt => (f attempt, attempt + 1)
  | remaining + 1, attempt =>
    match f attempt with
    | .ok a => (.ok a, attempt + 1)
    | .error e =>
      if p e then retry_loop p f remaining (attempt + 1)
      else (.error e, attempt + 1)

/-- Embeds `execute_with_retry` (performance.py:600-627): the body wrapped
by `retry_database_operation(max_retries=5, base_delay=0.1)`.
`outcomes i` is what the underlying `cursor.execute` does on attempt
`i`. -/
def execute_with_retry (outcomes : Nat → SqliteOutcome) :
    Except DbException Unit × Nat :=
  retry_loop is_retryable (fun i => execute_attempt (outcomes i)) 5 0

/-! ## Connection pool (`mtg_utils/performance.py`, `ConnectionPool`) -/

/-- Abstract state of a `ConnectionPool`: the value of
`_created_connections`, the number of idle handles in `_pool`, the number
of handles currently checked out, and the number of handles closed and
never returned (discarded after an error, closed on a full pool, or
drained by `close_all`). -/
structure PoolState where
  created_connections : Nat
  idle : Nat
  inUse : Nat
  discarded : Nat
deriving DecidableEq

/-- The freshly-constructed pool (performance.py:67-72): no handle exists
yet. -/
def initPool : PoolState :=
  ⟨0, 0, 0, 0⟩

/-- One observable transition of `ConnectionPool`
(performance.py:84-131).  `acquireIdle` is `get_nowait` succeeding (or the
in-lock `get(timeout=30)` after a wait); `acquireNew` creates a handle
under the lock only while the counter is below the bound and increments
the counter; `releaseHealthy` returns a handle to the queue;
`releasePoolFull` closes the handle when `put_nowait` finds the queue
full; `releaseError` closes a possibly-corrupted handle after an
exception — in neither close path is `_created_connections` decremented;
`closeIdle` is `close_all` draining one idle handle. -/
inductive PoolStep (max_connections : Nat) : PoolState → PoolState → Prop
  | acquireIdle (s : PoolState) (h : 0 < s.idle) :
      PoolStep max_connections s
        { s with idle := s.idle - 1, inUse := s.inUse + 1 }
  | acquireNew (s : PoolState) (hidle : s.idle = 0)
      (h : s.created_connections < max_connections) :
      PoolStep max_connections s
        { s with created_connections := s.created_connections + 1, inUse := s.inUse + 1 }
  | releaseHealthy (s : PoolState) (h : 0 < s.inUse)
      (hroom : s.idle < max_connections) :
      PoolStep max_connections s
        { s with inUse := s.inUse - 1, idle := s.idle + 1 }
  | releasePoolFull (s : PoolState) (h : 0 < s.inUse)
      (hfull : s.idle = max_connections) :
      PoolStep max_connections s
        { s with inUse := s.inUse - 1, discarded := s.discarded + 1 }
  | releaseError (s : PoolState) (h : 0 < s.inUse) :
      PoolStep max_connections s
        { s with inUse := s.inUse - 1, discarded := s.discarded + 1 }
  | closeIdle (s : PoolState) (h : 0 < s.idle) :
      PoolStep max_connections s
        { s with idle := s.idle - 1, discarded := s.discarded + 1 }

/-- States a `ConnectionPool` can reach from construction through any
interleaving of acquires, releases, error discards and drains. -/
inductive PoolReachable (max_connections : Nat) : PoolState → Prop
  | init : PoolReachable max_connections initPool
  | step {s s' : PoolState} : PoolReachable max_connections s →
      PoolStep max_connections s s' → PoolReachable max_connections s'

end MtgScripts

namespace MtgScripts

/-! ## Theorems for the price extractor -/

/-- C3: `calculate_average_price` returns the arithmetic mean of the
non-null values only, and returns `none` — not zero — exactly when the
mapping is empty or all its values are null; in particular
`{d1: 1, d2: 2, d3: 3}` yields `2` and `{d1: 1, d2: null, d3: 2}`
yields `3/2`. -/
theorem calculate_average_price_spec (m : PriceDict) :
    (calculate_average_price m = none ↔ ∀ kv ∈ m, kv.2 = none) ∧
    (∀ ps : List ℚ, ps = m.filterMap (fun kv => kv.2) → ps ≠ [] →
      calculate_average_price m = some (ps.sum / ps.length)) ∧
    calculate_average_price
      [("d1", some 1), ("d2", some 2), ("d3", some 3)] = some 2 ∧
    calculate_average_price
      [("d1", some 1), ("d2", none), ("d3", some 2)] = some (3/2) := by
  refine ⟨?_, ?_,
    by norm_num [calculate_average_price, List.filterMap_cons]; decide,
    by norm_num [calculate_average_price, List.filterMap_cons]; decide⟩
  · constructor
    · intro h kv hkv
      by_cases hm : m = []
      · subst hm; simp at hkv
      · simp only [calculate_average_price, if_neg hm] at h
        by_cases hp : m.filterMap (fun kv => kv.2) = []
        · exact List.filterMap_eq_nil_iff.mp hp kv hkv
        · simp [hp] at h
    · intro h
      by_cases hm : m = []
      · simp [calculate_average_price, hm]
      · have hp : m.filterMap (fun kv => kv.2) = [] :=
          List.filterMap_eq_nil_iff.mpr h
        simp [calculate_average_price, hm, hp]
  · intro ps hps hne
    have hm : m ≠ [] := by
      intro h
      subst h
      simp at hps
      exact hne hps
    simp only [calculate_average_price, if_neg hm, ← hps, if_neg hne]

/-- C4: `extract_tcgplayer_price` returns `none` whenever any of the four
nested keys (paper, tcgplayer, retail, normal) is absent, and reduces the
date→price mapping via `calculate_average_price` exactly when all four are
present; the function is total, so no input raises. -/
theorem extract_tcgplayer_price_spec (d : CardPriceData) :
    (d.paper = none → extract_tcgplayer_price d = none) ∧
    (∀ p, d.paper = some p → p.tcgplayer = none →
      extract_tcgplayer_price d = none) ∧
    (∀ p t, d.paper = some p → p.tcgplayer = some t → t.retail = none →
      extract_tcgplayer_price d = none) ∧
    (∀ p t r, d.paper = some p → p.tcgplayer = some t → t.retail = some r →
      r.normal = none → extract_tcgplayer_price d = none) ∧
    (∀ p t r m, d.paper = some p → p.tcgplayer = some t →
      t.retail = some r → r.normal = some m →
      extract_tcgplayer_price d = calculate_average_price m) := by
  refine ⟨?_, ?_, ?_, ?_, ?_⟩
  · intro h; simp [extract_tcgplayer_price, h]
  · intro p hp ht; simp [extract_tcgplayer_price, hp, ht]
  · intro p t hp ht hr; simp [extract_tcgplayer_price, hp, ht, hr]
  · intro p t r hp ht hr hn; simp [extract_tcgplayer_price, hp, ht, hr, hn]
  · intro p t r m hp ht hr hn; simp [extract_tcgplayer_price, hp, ht, hr, hn]

/-- Witness for `extract_tcgplayer_price_spec` at a concrete input: the
object `{paper: {tcgplayer: {retail: {}}}}` (missing `"normal"`) yields no
price. -/
theorem extract_tcgplayer_price_spec_witness :
    extract_tcgplayer_price ⟨some ⟨some ⟨some ⟨none⟩⟩⟩⟩ = none := by
  have h := (extract_tcgplayer_price_spec ⟨some ⟨some ⟨some ⟨none⟩⟩⟩⟩).2.2.2.1
  exact h ⟨some ⟨some ⟨none⟩⟩⟩ ⟨some ⟨none⟩⟩ ⟨none⟩ rfl rfl rfl rfl

/-! ## Theorems for schema migration -/

/-- C7: calling `ensure_column_exists` twice with the same (table, column)
issues the additive ALTER at most once: on a table lacking the column the
first call appends it and returns `true`, the second call leaves the
schema unchanged and returns `false`; on a table already holding the
column no call ever alters it. -/
theorem ensure_column_exists_idempotent (columns : List String)
    (column : String) :
    (column ∉ columns →
      ensure_column_exists columns column = (true, columns ++ [column])) ∧
    (column ∈ columns →
      ensure_column_exists columns column = (false, columns)) ∧
    ensure_column_exists (ensure_column_exists columns column).2 column =
      (false, (ensure_column_exists columns column).2) := by
  refine ⟨?_, ?_, ?_⟩
  · intro h; simp [ensure_column_exists, h]
  · intro h; simp [ensure_column_exists, h]
  · by_cases h : column ∈ columns
    · simp [ensure_column_exists, h]
    · simp [ensure_column_exists, h]

/-! ## Theorems for the batch upsert engine -/

/-- Unfolding lemma: a record that is an empty tuple aborts the batch
(`card_data[0]` raises `IndexError`). -/
theorem insert_card_step_nil (writeFails : CardTuple → Bool)
    (st : InsertCounts × CardDb) (r : CardTuple) (hu : r.head? = none) :
    insert_card_step writeFails st r = .error () := by
  unfold insert_card_step
  rw [hu]

/-- Unfolding lemma: the outcome of the per-record step on a nonempty
tuple, by cases on the write failing and on the existence probe. -/
theorem insert_card_step_cons (writeFails : CardTuple → Bool)
    (st : InsertCounts × CardDb) (r : CardTuple) (u : Option String)
    (hu : r.head? = some u) :
    insert_card_step writeFails st r =
      (if writeFails r then
        .ok ({ st.1 with skipped_cards := st.1.skipped_cards + 1 }, st.2)
      else if st.2.any (keyMatches u) then
        .ok ({ st.1 with updated_cards := st.1.updated_cards + 1 },
          insertOrReplace st.2 u r)
      else
        .ok ({ st.1 with new_cards := st.1.new_cards + 1 },
          insertOrReplace st.2 u r)) := by
  unfold insert_card_step
  rw [hu]

/-- Each successful per-record step increments exactly one of the three
counters. -/
theorem insert_card_step_counts (writeFails : CardTuple → Bool)
    (st st' : InsertCounts × CardDb) (r : CardTuple)
    (h : insert_card_step writeFails st r = .ok st') :
    st'.1.new_cards + st'.1.updated_cards + st'.1.skipped_cards =
      st.1.new_cards + st.1.updated_cards + st.1.skipped_cards + 1 := by
  cases hh : r.head? with
  | none =>
    rw [insert_card_step_nil writeFails st r hh] at h
    exact absurd h (fun hc => Except.noConfusion hc)
  | some u =>
    rw [insert_card_step_cons writeFails st r u hh] at h
    by_cases hw : writeFails r
    · rw [if_pos hw] at h
      cases h
      show st.1.new_cards + st.1.updated_cards + (st.1.skipped_cards + 1) =
        st.1.new_cards + st.1.updated_cards + st.1.skipped_cards + 1
      omega
    · rw [if_neg hw] at h
      by_cases he : st.2.any (keyMatches u)
      · rw [if_pos he] at h
        cases h
        show st.1.new_cards + (st.1.updated_cards + 1) + st.1.skipped_cards =
          st.1.new_cards + st.1.updated_cards + st.1.skipped_cards + 1
        omega
      · rw [if_neg he] at h
        cases h
        show st.1.new_cards + 1 + st.1.updated_cards + st.1.skipped_cards =
          st.1.new_cards + st.1.updated_cards + st.1.skipped_cards + 1
        omega

/-- Folding the per-record step over a record list adds the list's length
to the counter total. -/
theorem batch_fold_counts (writeFails : CardTuple → Bool) :
    ∀ (cards : List CardTuple) (st st' : InsertCounts × CardDb),
    List.foldlM (insert_card_step writeFails) st cards = .ok st' →
    st'.1.new_cards + st'.1.updated_cards + st'.1.skipped_cards =
      st.1.new_cards + st.1.updated_cards + st.1.skipped_cards +
        cards.length := by
  intro cards
  induction cards with
  | nil =>
    intro st st' h
    simp only [List.foldlM_nil, pure, Except.pure] at h
    cases h
    simp
  | cons a l ih =>
    intro st st' h
    rw [List.foldlM_cons] at h
    cases hstep : insert_card_step writeFails st a with
    | error e =>
      rw [hstep] at h
      exact absurd (show Except.error e = Except.ok st' from h)
        (fun hc => Except.noConfusion hc)
    | ok mid =>
      rw [hstep] at h
      replace h : List.foldlM (insert_card_step writeFails) mid l =
        Except.ok st' := h
      have h1 := insert_card_step_counts writeFails st mid a hstep
      have h2 := ih mid st' h
      simp only [List.length_cons]
      omega

/-- When every record is a nonempty tuple the fold never aborts, and the
skipped counter grows by exactly the number of records whose write
fails. -/
theorem batch_fold_skipped (writeFails : CardTuple → Bool) :
    ∀ (cards : List CardTuple) (st : InsertCounts × CardDb),
    (∀ r ∈ cards, (r.head?).isSome) →
    ∃ st', List.foldlM (insert_card_step writeFails) st cards = .ok st' ∧
      st'.1.skipped_cards = st.1.skipped_cards + cards.countP writeFails := by
  intro cards
  induction cards with
  | nil =>
    intro st _
    exact ⟨st, rfl, by simp⟩
  | cons a l ih =>
    intro st hne
    have ha : (a.head?).isSome := hne a (List.mem_cons_self a l)
    cases hh : a.head? with
    | none => rw [hh] at ha; exact absurd ha (by simp)
    | some u =>
      have hstep : ∃ mid, insert_card_step writeFails st a = .ok mid ∧
          mid.1.skipped_cards =
            st.1.skipped_cards + (if writeFails a then 1 else 0) := by
        rw [insert_card_step_cons writeFails st a u hh]
        by_cases hw : writeFails a
        · refine ⟨({ st.1 with skipped_cards := st.1.skipped_cards + 1 },
            st.2), ?_, ?_⟩
          · rw [if_pos hw]
          · simp [hw]
        · by_cases he : st.2.any (keyMatches u)
          · refine ⟨({ st.1 with updated_cards := st.1.updated_cards + 1 },
              insertOrReplace st.2 u a), ?_, ?_⟩
            · rw [if_neg hw, if_pos he]
            · simp [hw]
          · refine ⟨({ st.1 with new_cards := st.1.new_cards + 1 },
              insertOrReplace st.2 u a), ?_, ?_⟩
            · rw [if_neg hw, if_neg he]
            · simp [hw]
      obtain ⟨mid, hmid, hskip⟩ := hstep
      obtain ⟨st', hfold, hskip'⟩ :=
        ih mid (fun r hr => hne r (List.mem_cons_of_mem a hr))
      refine ⟨st', ?_, ?_⟩
      · rw [List.foldlM_cons, hmid]
        exact hfold
      · rw [hskip', hskip, List.countP_cons]
        by_cases hw : writeFails a
        · simp [hw]
          omega
        · simp [hw]

/-- Replacing every key-matching row by a tuple that itself carries the
key preserves the number of key-matching rows. -/
theorem countP_map_replace (u : Option String) (r : CardTuple)
    (hr : keyMatches u r = true) (db : CardDb) :
    (db.map (fun row => if keyMatches u row then r else row)).countP
      (keyMatches u) = db.countP (keyMatches u) := by
  induction db with
  | nil => simp
  | cons hd tl ih =>
    by_cases hhd : keyMatches u hd
    · simp [List.countP_cons, hhd, hr, ih]
    · simp [List.countP_cons, hhd, ih]

/-- After replacing every key-matching row by `r`, any key-matching row of
the result is `r` itself. -/
theorem mem_map_replace (u : Option String) (r : CardTuple) (db : CardDb)
    (row : CardTuple)
    (hmem : row ∈ db.map (fun row => if keyMatches u row then r else row))
    (hrow : keyMatches u row = true) : row = r := by
  obtain ⟨orig, _, heq⟩ := List.mem_map.mp hmem
  by_cases hk : keyMatches u orig
  · rw [if_pos hk] at heq
    exact heq.symm
  · rw [if_neg hk] at heq
    rw [heq] at hk
    exact absurd hrow hk

/-- Running `INSERT OR REPLACE` for a tuple with key `u` against a table
holding at most one row with key `u` leaves exactly one row with key `u`,
and that row is the inserted tuple. -/
theorem insertOrReplace_key (db : CardDb) (u : Option String)
    (r : CardTuple) (hr : keyMatches u r = true)
    (hdb : countUuid db u ≤ 1) :
    countUuid (insertOrReplace db u r) u = 1 ∧
    ∀ row ∈ insertOrReplace db u r, keyMatches u row = true → row = r := by
  unfold insertOrReplace countUuid at *
  by_cases he : db.any (keyMatches u)
  · rw [if_pos he]
    have hpos : 0 < db.countP (keyMatches u) :=
      List.countP_pos_iff.mpr (List.any_eq_true.mp he)
    refine ⟨?_, fun row hm hk => mem_map_replace u r db row hm hk⟩
    rw [countP_map_replace u r hr db]
    omega
  · rw [if_neg he]
    have hzero : db.countP (keyMatches u) = 0 := by
      rw [List.countP_eq_zero]
      intro a ha hk
      exact he (List.any_eq_true.mpr ⟨a, ha, hk⟩)
    constructor
    · rw [List.countP_append, hzero, List.countP_cons]
      simp [hr]
    · intro row hm hk
      rcases List.mem_append.mp hm with hin | hin
      · exfalso
        exact he (List.any_eq_true.mpr ⟨row, hin, hk⟩)
      · simpa using hin

/-- C1: inserting the same fully-formed (nonempty, write-succeeding)
record twice leaves exactly one row carrying its uuid, that row's full
content is the second write, and the second run reports 0 new, 1 updated
and 0 skipped for it. -/
theorem batch_insert_cards_idempotent (writeFails : CardTuple → Bool)
    (db : CardDb) (r : CardTuple) (u : Option String)
    (hu : r.head? = some u) (hw : writeFails r = false)
    (hdb : countUuid db u ≤ 1) :
    ∃ (c₁ : InsertCounts) (db₁ db₂ : CardDb),
      batch_insert_cards writeFails db [r] = .ok (c₁, db₁) ∧
      batch_insert_cards writeFails db₁ [r] = .ok (⟨0, 1, 0⟩, db₂) ∧
      countUuid db₂ u = 1 ∧
      ∀ row ∈ db₂, keyMatches u row = true → row = r := by
  have hw' : ¬(writeFails r = true) := by rw [hw]; exact Bool.false_ne_true
  have hr : keyMatches u r = true := by
    unfold keyMatches
    rw [hu]
    exact beq_self_eq_true (some u)
  have run : ∀ d : CardDb, countUuid d u ≤ 1 →
      ∃ c : InsertCounts,
        batch_insert_cards writeFails d [r] =
          .ok (c, insertOrReplace d u r) ∧
        (d.any (keyMatches u) = true → c = ⟨0, 1, 0⟩) := by
    intro d hd
    have hcons := insert_card_step_cons writeFails (⟨0, 0, 0⟩, d) r u hu
    rw [if_neg hw'] at hcons
    by_cases he : d.any (keyMatches u)
    · rw [if_pos he] at hcons
      refine ⟨⟨0, 1, 0⟩, ?_, fun _ => rfl⟩
      unfold batch_insert_cards
      rw [List.foldlM_cons, hcons]
      rfl
    · rw [if_neg he] at hcons
      refine ⟨⟨1, 0, 0⟩, ?_, fun hc => absurd hc he⟩
      unfold batch_insert_cards
      rw [List.foldlM_cons, hcons]
      rfl
  obtain ⟨c₁, hrun₁, _⟩ := run db hdb
  have hkey₁ := insertOrReplace_key db u r hr hdb
  have hany₁ : (insertOrReplace db u r).any (keyMatches u) = true := by
    rw [List.any_eq_true]
    have hpos : 0 < countUuid (insertOrReplace db u r) u := by
      rw [hkey₁.1]
      exact Nat.one_pos
    exact List.countP_pos_iff.mp hpos
  obtain ⟨c₂, hrun₂, hc₂⟩ := run (insertOrReplace db u r) (le_of_eq hkey₁.1)
  have hkey₂ := insertOrReplace_key (insertOrReplace db u r) u r hr
    (le_of_eq hkey₁.1)
  refine ⟨c₁, insertOrReplace db u r, insertOrReplace (insertOrReplace db u r) u r,
    hrun₁, ?_, hkey₂.1, hkey₂.2⟩
  rw [hc₂ hany₁] at hrun₂
  exact hrun₂

/-- Witness for `batch_insert_cards_idempotent`: inserting the record
`(u1, Bolt)` twice into an initially empty table leaves one `u1` row whose
content is the second write, reported as 0 new / 1 updated / 0 skipped. -/
theorem batch_insert_cards_idempotent_witness :
    (([some "u1", some "Bolt"] : CardTuple).head? = some (some "u1") ∧
      (fun (_ : CardTuple) => false) [some "u1", some "Bolt"] = false ∧
      countUuid [] (some "u1") ≤ 1) ∧
    ∃ (c₁ : InsertCounts) (db₁ db₂ : CardDb),
      batch_insert_cards (fun _ => false) [] [[some "u1", some "Bolt"]] =
        .ok (c₁, db₁) ∧
      batch_insert_cards (fun _ => false) db₁ [[some "u1", some "Bolt"]] =
        .ok (⟨0, 1, 0⟩, db₂) ∧
      countUuid db₂ (some "u1") = 1 ∧
      ∀ row ∈ db₂, keyMatches (some "u1") row = true →
        row = [some "u1", some "Bolt"] := by
  refine ⟨⟨by decide, rfl, by decide⟩, ?_⟩
  exact batch_insert_cards_idempotent (fun _ => false) []
    [some "u1", some "Bolt"] (some "u1") (by decide) rfl (by decide)

/-- C8: whenever `batch_insert_cards` returns its three counts (the fold
did not abort), they partition the input: new + updated + skipped equals
the number of input tuples. -/
theorem batch_insert_cards_counts_partition (writeFails : CardTuple → Bool)
    (db : CardDb) (cards : List CardTuple) (counts : InsertCounts)
    (db' : CardDb)
    (h : batch_insert_cards writeFails db cards = .ok (counts, db')) :
    counts.new_cards + counts.updated_cards + counts.skipped_cards =
      cards.length := by
  have := batch_fold_counts writeFails cards (⟨0, 0, 0⟩, db) (counts, db') h
  simpa using this

/-- Witness for `batch_insert_cards_counts_partition`: a two-record batch
over an empty table yields counts summing to 2. -/
theorem batch_insert_cards_counts_partition_witness :
    batch_insert_cards (fun _ => false) []
        [[some "u1", some "Bolt"], [some "u2", some "Growth"]] =
      .ok (⟨2, 0, 0⟩, [[some "u1", some "Bolt"], [some "u2", some "Growth"]]) ∧
    (⟨2, 0, 0⟩ : InsertCounts).new_cards +
        (⟨2, 0, 0⟩ : InsertCounts).updated_cards +
        (⟨2, 0, 0⟩ : InsertCounts).skipped_cards =
      [[some "u1", some "Bolt"], [some "u2", some "Growth"]].length := by
  have h : batch_insert_cards (fun _ => false) []
      [[some "u1", some "Bolt"], [some "u2", some "Growth"]] =
      .ok (⟨2, 0, 0⟩,
        [[some "u1", some "Bolt"], [some "u2", some "Growth"]]) := by rfl
  exact ⟨h, batch_insert_cards_counts_partition (fun _ => false) []
    [[some "u1", some "Bolt"], [some "u2", some "Growth"]] ⟨2, 0, 0⟩
    [[some "u1", some "Bolt"], [some "u2", some "Growth"]] h⟩

/-- C2: in a batch of N nonempty tuples where the write fails for exactly
one record, `batch_insert_cards` does not abort, reports exactly 1
skipped, and performs the other N−1 writes (each counted as new or
updated). -/
theorem batch_insert_cards_failure_isolation (writeFails : CardTuple → Bool)
    (db : CardDb) (cards : List CardTuple)
    (hne : ∀ r ∈ cards, (r.head?).isSome)
    (hone : cards.countP writeFails = 1) :
    ∃ counts db',
      batch_insert_cards writeFails db cards = .ok (counts, db') ∧
      counts.skipped_cards = 1 ∧
      counts.new_cards + counts.updated_cards = cards.length - 1 := by
  obtain ⟨⟨counts, db'⟩, hfold, hskip⟩ :=
    batch_fold_skipped writeFails cards (⟨0, 0, 0⟩, db) hne
  have hsum := batch_fold_counts writeFails cards (⟨0, 0, 0⟩, db)
    (counts, db') hfold
  refine ⟨counts, db', hfold, ?_, ?_⟩
  · simpa [hone] using hskip
  · have h1 : counts.skipped_cards = 1 := by simpa [hone] using hskip
    have hlen : 1 ≤ cards.length := by
      rcases cards with _ | ⟨a, l⟩
      · simp at hone
      · simp
    simp only at hsum
    omega

/-- Witness for `batch_insert_cards_failure_isolation`: of three records,
the middle one (an arity-mismatched two-slot tuple against a three-column
shape) fails its write; the batch completes with 1 skipped and 2
writes. -/
theorem batch_insert_cards_failure_isolation_witness :
    (∀ r ∈ [[some "u1", some "a", some "b"], [some "u2"],
        [some "u3", some "c", some "d"]], (r.head? : Option (Option String)).isSome) ∧
    ([[some "u1", some "a", some "b"], [some "u2"],
        [some "u3", some "c", some "d"]].countP
      (fun r => decide (r.length ≠ 3))) = 1 ∧
    ∃ counts db',
      batch_insert_cards (fun r => decide (r.length ≠ 3)) []
          [[some "u1", some "a", some "b"], [some "u2"],
            [some "u3", some "c", some "d"]] = .ok (counts, db') ∧
      counts.skipped_cards = 1 ∧
      counts.new_cards + counts.updated_cards =
        [[some "u1", some "a", some "b"], [some "u2"],
          [some "u3", some "c", some "d"]].length - 1 := by
  refine ⟨by decide, by decide, ?_⟩
  exact batch_insert_cards_failure_isolation (fun r => decide (r.length ≠ 3))
    [] _ (by decide) (by decide)

/-- Witness for `ensure_column_exists_idempotent`: adding
`salience_score` to a two-column table appends it once; the repeat call is
a no-op returning `false`. -/
theorem ensure_column_exists_idempotent_witness :
    ("salience_score" ∉ ["uuid", "name"] ∧
      ensure_column_exists ["uuid", "name"] "salience_score" =
        (true, ["uuid", "name", "salience_score"])) ∧
    ensure_column_exists
        (ensure_column_exists ["uuid", "name"] "salience_score").2
        "salience_score" =
      (false, (ensure_column_exists ["uuid", "name"] "salience_score").2) := by
  have h := ensure_column_exists_idempotent ["uuid", "name"] "salience_score"
  exact ⟨⟨by decide, h.1 (by decide)⟩, h.2.2⟩

/-! ## Theorems for the deck-list parser -/

/-- C5: the deck-list parser turns "4 Lightning Bolt / 2 Giant Growth /
1 Black Lotus" into the 7-element ordered sequence with each name's
copies contiguous; the tab-separated "4x" form parses identically to
"4 "; a leading bracketed set annotation after the quantity (including an
empty bracket) is stripped; and a quantity of 0 emits zero entries. -/
theorem read_card_list_formats :
    read_card_list "4 Lightning Bolt\n2 Giant Growth\n1 Black Lotus" =
      ["Lightning Bolt", "Lightning Bolt", "Lightning Bolt", "Lightning Bolt",
        "Giant Growth", "Giant Growth", "Black Lotus"] ∧
    read_card_list "4x\tLightning Bolt" = read_card_list "4 Lightning Bolt" ∧
    read_card_list "4 [MOR] Heritage Druid" =
      ["Heritage Druid", "Heritage Druid", "Heritage Druid",
        "Heritage Druid"] ∧
    read_card_list "4 [] Heritage Druid" =
      ["Heritage Druid", "Heritage Druid", "Heritage Druid",
        "Heritage Druid"] ∧
    read_card_list "0 Giant Growth" = [] := by
  exact ⟨by decide, by decide, by decide, by decide, by decide⟩

/-! ## Theorems for the encoding fallback -/

/-- C9: the decode loop of `read_card_list` is total — whatever the utf-8
and cp1252 codecs do, latin-1 (second in `encodings_to_try`) decodes
every byte sequence, so the loop always produces a decoded string and the
fatal could-not-decode branch is unreachable. -/
theorem decode_fallback_total (utf8Dec cp1252Dec : List UInt8 → Option String)
    (bs : List UInt8) :
    (decode_file_content utf8Dec cp1252Dec bs).isSome = true := by
  cases h : utf8Dec bs with
  | none =>
    simp [decode_file_content, encodings_to_try, tryDecodeLoop, decodeWith, h]
  | some s =>
    simp [decode_file_content, encodings_to_try, tryDecodeLoop, decodeWith, h]

/-! ## Theorems for the statement-level retry layer -/

/-- The attempt counter of the retry loop is bounded by the permitted
number of retries. -/
theorem retry_loop_attempts_le (p : DbException → Bool)
    (f : Nat → Except DbException Unit) :
    ∀ (remaining attempt : Nat),
      (retry_loop p f remaining attempt).2 ≤ attempt + remaining + 1 := by
  intro remaining
  induction remaining with
  | zero =>
    intro attempt
    simp [retry_loop]
  | succ r ih =>
    intro attempt
    cases hf : f attempt with
    | ok a =>
      simp [retry_loop, hf]
    | error e =>
      by_cases hp : p e
      · simp only [retry_loop, hf, hp, if_true]
        have := ih (attempt + 1)
        omega
      · simp [retry_loop, hf, hp]

/-- The retry loop performs at least one attempt. -/
theorem retry_loop_attempts_pos (p : DbException → Bool)
    (f : Nat → Except DbException Unit) :
    ∀ (remaining attempt : Nat),
      attempt + 1 ≤ (retry_loop p f remaining attempt).2 := by
  intro remaining
  induction remaining with
  | zero =>
    intro attempt
    simp [retry_loop]
  | succ r ih =>
    intro attempt
    cases hf : f attempt with
    | ok a => simp [retry_loop, hf]
    | error e =>
      by_cases hp : p e
      · simp only [retry_loop, hf, hp, if_true]
        have := ih (attempt + 1)
        omega
      · simp [retry_loop, hf, hp]

/-- Attempt `i + 1` of the wrapped `cursor.execute` is reached only if
attempt `i` hit a "database is locked" operational error. -/
theorem retry_loop_retries_only_locked (outcomes : Nat → SqliteOutcome) :
    ∀ (remaining attempt i : Nat), attempt ≤ i →
      i + 1 < (retry_loop is_retryable
        (fun j => execute_attempt (outcomes j)) remaining attempt).2 →
      outcomes i = SqliteOutcome.operationalLocked := by
  intro remaining
  induction remaining with
  | zero =>
    intro attempt i hai hlt
    simp [retry_loop] at hlt
    omega
  | succ r ih =>
    intro attempt i hai hlt
    cases ho : outcomes attempt with
    | success =>
      simp [retry_loop, ho, execute_attempt] at hlt
      omega
    | operationalLocked =>
      by_cases hia : i = attempt
      · rw [hia]
        exact ho
      · simp only [retry_loop, ho, execute_attempt, is_retryable,
          if_true] at hlt
        exact ih (attempt + 1) i (by omega) hlt
    | operationalOther =>
      simp [retry_loop, ho, execute_attempt, is_retryable] at hlt
      omega
    | otherSqliteError =>
      simp [retry_loop, ho, execute_attempt, is_retryable] at hlt
      omega

/-- When every attempt hits the lock, the loop retries until the bound is
exhausted and surfaces the final `RetryableError`. -/
theorem retry_loop_all_locked (outcomes : Nat → SqliteOutcome)
    (hall : ∀ i, outcomes i = SqliteOutcome.operationalLocked) :
    ∀ (remaining attempt : Nat),
      retry_loop is_retryable (fun j => execute_attempt (outcomes j))
          remaining attempt =
        (.error DbException.retryableError, attempt + remaining + 1) := by
  have hf : ∀ i, execute_attempt (outcomes i) =
      Except.error DbException.retryableError := by
    intro i
    rw [hall i]
    rfl
  intro remaining
  induction remaining with
  | zero =>
    intro attempt
    simp [retry_loop, hf attempt]
  | succ r ih =>
    intro attempt
    have h2 : attempt + 1 + r + 1 = attempt + (r + 1) + 1 := by omega
    simp only [retry_loop]
    rw [hf attempt]
    simp only [is_retryable, if_true]
    rw [ih (attempt + 1), h2]

/-- C6: `execute_with_retry` retries a write if and only if the failure is
a "database is locked" operational error (surfaced as `RetryableError`):
every attempt after the first requires the previous attempt to have been
locked, a first locked attempt does get retried, at most 5 retries (6
attempts) ever happen and the exhausted lock surfaces as the
`RetryableError`; any other database error is converted to a
non-retryable `DatabaseError` and propagates after exactly one attempt;
and the inter-attempt delay is exponential backoff with random jitter,
`base * 2 ^ attempt * (1/2 + random)` for base 0.1. -/
theorem execute_with_retry_spec (outcomes : Nat → SqliteOutcome) :
    ((execute_with_retry outcomes).2 ≤ 6) ∧
    (∀ i, i + 1 < (execute_with_retry outcomes).2 →
      outcomes i = SqliteOutcome.operationalLocked) ∧
    (outcomes 0 = SqliteOutcome.operationalLocked →
      2 ≤ (execute_with_retry outcomes).2) ∧
    (outcomes 0 = SqliteOutcome.operationalOther ∨
        outcomes 0 = SqliteOutcome.otherSqliteError →
      execute_with_retry outcomes = (.error DbException.databaseError, 1)) ∧
    ((∀ i, outcomes i = SqliteOutcome.operationalLocked) →
      execute_with_retry outcomes = (.error DbException.retryableError, 6)) ∧
    (∀ (attempt : Nat) (jitterSample : ℚ),
      retry_delay (1/10) true true attempt jitterSample =
        (1/10) * 2 ^ attempt * (1/2 + jitterSample)) := by
  refine ⟨?_, ?_, ?_, ?_, ?_, ?_⟩
  · exact retry_loop_attempts_le is_retryable
      (fun j => execute_attempt (outcomes j)) 5 0
  · intro i hlt
    exact retry_loop_retries_only_locked outcomes 5 0 i (Nat.zero_le i) hlt
  · intro h0
    unfold execute_with_retry
    simp only [retry_loop, h0, execute_attempt, is_retryable, if_true]
    exact retry_loop_attempts_pos is_retryable
      (fun j => execute_attempt (outcomes j)) 4 1
  · intro h0
    cases h0 with
    | inl h =>
      unfold execute_with_retry
      simp [retry_loop, h, execute_attempt, is_retryable]
    | inr h =>
      unfold execute_with_retry
      simp [retry_loop, h, execute_attempt, is_retryable]
  · intro hall
    exact retry_loop_all_locked outcomes hall 5 0
  · intro attempt jitterSample
    simp only [retry_delay, if_true]

/-! ## Theorems for the connection pool -/

/-- Along any single pool transition, `_created_connections` never
decreases and the discard count never decreases. -/
theorem poolStep_counters_monotone (m : Nat) (s s' : PoolState)
    (hstep : PoolStep m s s') :
    s.created_connections ≤ s'.created_connections ∧
    s.discarded ≤ s'.discarded := by
  cases hstep with
  | acquireIdle h => exact ⟨Nat.le_refl _, Nat.le_refl _⟩
  | acquireNew hidle h => exact ⟨Nat.le_succ _, Nat.le_refl _⟩
  | releaseHealthy h hroom => exact ⟨Nat.le_refl _, Nat.le_refl _⟩
  | releasePoolFull h hfull => exact ⟨Nat.le_refl _, Nat.le_succ _⟩
  | releaseError h => exact ⟨Nat.le_refl _, Nat.le_succ _⟩
  | closeIdle h => exact ⟨Nat.le_refl _, Nat.le_succ _⟩

/-- One pool transition preserves the bound on the creation counter and
the accounting of every created handle. -/
theorem poolStep_preserves_inv (m : Nat) (s s' : PoolState)
    (hstep : PoolStep m s s')
    (h1 : s.created_connections ≤ m)
    (h2 : s.idle + s.inUse + s.discarded = s.created_connections) :
    s'.created_connections ≤ m ∧
    s'.idle + s'.inUse + s'.discarded = s'.created_connections := by
  cases hstep with
  | acquireIdle h =>
    refine ⟨h1, ?_⟩
    show s.idle - 1 + (s.inUse + 1) + s.discarded = s.created_connections
    omega
  | acquireNew hidle h =>
    refine ⟨?_, ?_⟩
    · show s.created_connections + 1 ≤ m
      omega
    · show s.idle + (s.inUse + 1) + s.discarded = s.created_connections + 1
      omega
  | releaseHealthy h hroom =>
    refine ⟨h1, ?_⟩
    show s.idle + 1 + (s.inUse - 1) + s.discarded = s.created_connections
    omega
  | releasePoolFull h hfull =>
    refine ⟨h1, ?_⟩
    show s.idle + (s.inUse - 1) + (s.discarded + 1) = s.created_connections
    omega
  | releaseError h =>
    refine ⟨h1, ?_⟩
    show s.idle + (s.inUse - 1) + (s.discarded + 1) = s.created_connections
    omega
  | closeIdle h =>
    refine ⟨h1, ?_⟩
    show s.idle - 1 + s.inUse + (s.discarded + 1) = s.created_connections
    omega

/-- Invariant of every reachable pool state: the creation counter stays
within the bound, and every created handle is accounted for as idle, in
use, or discarded. -/
theorem pool_reachable_inv (m : Nat) (s : PoolState)
    (h : PoolReachable m s) :
    s.created_connections ≤ m ∧
    s.idle + s.inUse + s.discarded = s.created_connections := by
  induction h with
  | init => exact ⟨Nat.zero_le m, rfl⟩
  | step hr hs ih => exact poolStep_preserves_inv m _ _ hs ih.1 ih.2

/-- C10: in every reachable `ConnectionPool` state the count of
connections ever created never exceeds `max_connections`; the handles the
pool can still supply (idle plus checked out) equal created minus
discarded, hence at most `max_connections` minus the discards; and along
any further step the created and discarded counters never decrease — so
each discarded handle permanently reduces the pool's remaining supply. -/
theorem connection_pool_bounded (max_connections : Nat) (s : PoolState)
    (h : PoolReachable max_connections s) :
    s.created_connections ≤ max_connections ∧
    s.idle + s.inUse = s.created_connections - s.discarded ∧
    s.idle + s.inUse ≤ max_connections - s.discarded ∧
    (∀ s', PoolStep max_connections s s' →
      s.created_connections ≤ s'.created_connections ∧
      s.discarded ≤ s'.discarded) := by
  obtain ⟨h1, h2⟩ := pool_reachable_inv max_connections s h
  exact ⟨h1, by omega, by omega,
    fun s' hs => poolStep_counters_monotone max_connections s s' hs⟩

/-- Witness for `connection_pool_bounded` at the freshly-constructed pool
with bound 10. -/
theorem connection_pool_bounded_witness :
    PoolReachable 10 initPool ∧
    (initPool.created_connections ≤ 10 ∧
      initPool.idle + initPool.inUse =
        initPool.created_connections - initPool.discarded ∧
      initPool.idle + initPool.inUse ≤ 10 - initPool.discarded ∧
      (∀ s', PoolStep 10 initPool s' →
        initPool.created_connections ≤ s'.created_connections ∧
        initPool.discarded ≤ s'.discarded)) :=
  ⟨PoolReachable.init, connection_pool_bounded 10 initPool PoolReachable.init⟩
